import Mathlib

/-!
Shallow embedding of the brainfuck interpreter in `src/main.rs` of
kanishka-sahoo/rust-bf-int, together with theorems settling the spec
claims.  Machine integers are modelled as `Nat` (cells are `u32` holding
values in `[0, 255]`; indices are `usize`); a Rust panic (index out of
bounds, usize underflow) is modelled as `none` / a `crashed` outcome.
-/

namespace BFInt

/-- `const CELL_SIZE_LIMIT: u32 = 255;` -/
def CELL_SIZE_LIMIT : Nat := 255

/-- `const ARRAY_SIZE_LIMIT: usize = 30000;` -/
def ARRAY_SIZE_LIMIT : Nat := 30000

/-- `struct Memory` (`bytearray: [u32; ARRAY_SIZE_LIMIT]`, `idx: usize`).
The fixed-size array is modelled as a total function `Nat → Nat`; the Rust
code only ever reads or writes it at `idx`, which `keep_range` keeps below
`ARRAY_SIZE_LIMIT`. -/
structure Memory where
  bytearray : Nat → Nat
  idx : Nat

/-- `Memory::new`: all cells zero, pointer at 0. -/
def Memory.new : Memory :=
  { bytearray := fun _ => 0, idx := 0 }

/-- `Memory::keep_range`: `if self.idx >= ARRAY_SIZE_LIMIT { self.idx = 0; }` -/
def Memory.keep_range (m : Memory) : Memory :=
  if ARRAY_SIZE_LIMIT ≤ m.idx then { m with idx := 0 } else m

/-- `Memory::move_left`: wrap 0 to `ARRAY_SIZE_LIMIT - 1`, else decrement;
then `keep_range`. -/
def Memory.move_left (m : Memory) : Memory :=
  (if m.idx = 0 then { m with idx := ARRAY_SIZE_LIMIT - 1 }
   else { m with idx := m.idx - 1 }).keep_range

/-- `Memory::move_right`: increment, then `keep_range`. -/
def Memory.move_right (m : Memory) : Memory :=
  { m with idx := m.idx + 1 }.keep_range

/-- Write `v` to the cell under the pointer (array store at `idx`). -/
def Memory.setCell (m : Memory) (v : Nat) : Memory :=
  { m with bytearray := fun i => if i = m.idx then v else m.bytearray i }

/-- `Memory::accept_in(chr: u8)`: `self.bytearray[self.idx] = chr as u32`.
The `u8` argument is a `Nat` in `[0, 255]`. -/
def Memory.accept_in (m : Memory) (chr : Nat) : Memory :=
  m.setCell chr

/-- `Memory::give_out`: the value at the array pointer. -/
def Memory.give_out (m : Memory) : Nat :=
  m.bytearray m.idx

/-- `Memory::increment`: `if cell >= CELL_SIZE_LIMIT { cell = 0 } else { cell += 1 }`. -/
def Memory.increment (m : Memory) : Memory :=
  if CELL_SIZE_LIMIT ≤ m.bytearray m.idx then m.setCell 0
  else m.setCell (m.bytearray m.idx + 1)

/-- `Memory::decrement`: `if cell == 0 { cell = CELL_SIZE_LIMIT } else { cell -= 1 }`. -/
def Memory.decrement (m : Memory) : Memory :=
  if m.bytearray m.idx = 0 then m.setCell CELL_SIZE_LIMIT
  else m.setCell (m.bytearray m.idx - 1)

/-- `Memory::get_value`: the current value at the pointer. -/
def Memory.get_value (m : Memory) : Nat :=
  m.bytearray m.idx

/-- `enum Operations` from the source, one variant per instruction character
plus the catch-all `Comment(char)`. -/
inductive Operations where
  | Add
  | Subtract
  | MoveLeft
  | MoveRight
  | Input
  | Output
  | BracketLeft
  | BracketRight
  | Comment (c : Char)
deriving DecidableEq

/-- The character-to-instruction table in `InnerState::new`. -/
def charToOp (c : Char) : Operations :=
  if c = '+' then .Add
  else if c = '-' then .Subtract
  else if c = '>' then .MoveRight
  else if c = '<' then .MoveLeft
  else if c = '.' then .Output
  else if c = ',' then .Input
  else if c = '[' then .BracketLeft
  else if c = ']' then .BracketRight
  else .Comment c

/-- `struct InnerState`: operations, instruction pointer, memory, input
bytes, input cursor. -/
structure InnerState where
  operations : List Operations
  idx : Nat
  memory : Memory
  input_str : List Nat
  input_idx : Nat

/-- UTF-8 encoding of the Unicode code point `v` (as Rust `String::as_bytes`
produces for one `char`). -/
def charUtf8 (v : Nat) : List Nat :=
  if v < 128 then [v]
  else if v < 2048 then [192 + v / 64, 128 + v % 64]
  else if v < 65536 then [224 + v / 4096, 128 + v / 64 % 64, 128 + v % 64]
  else [240 + v / 262144, 128 + v / 4096 % 64, 128 + v / 64 % 64, 128 + v % 64]

/-- The byte sequence of a Rust `String` with the given characters
(`input_str.as_bytes()`). -/
def strBytes (s : List Char) : List Nat :=
  (s.map (fun c => charUtf8 c.toNat)).flatten

/-- `InnerState::new(ops: Vec<char>, input_str: String)`. -/
def InnerState.new (ops : List Char) (input_str : List Char) : InnerState :=
  { operations := ops.map charToOp
    idx := 0
    memory := Memory.new
    input_str := strBytes input_str
    input_idx := 0 }

/-- The scan loop of `InnerState::get_next_rbrack`: walk the suffix of
`operations` starting at position `idx2` (passed as the first argument; its
head is `operations[idx2]`), carrying the nesting counter `othercount`.
`none` models the Rust panic when `idx2` runs past the end of `operations`
(`self.operations[idx2]` out of bounds). -/
def scanNextRbrack : List Operations → Nat → Nat → Option Nat
  | [], _, _ => none
  | op :: rest, idx2, othercount =>
    match op with
    | .BracketRight =>
      if othercount = 0 then some idx2
      else scanNextRbrack rest (idx2 + 1) (othercount - 1)
    | .BracketLeft => scanNextRbrack rest (idx2 + 1) (othercount + 1)
    | _ => scanNextRbrack rest (idx2 + 1) othercount

/-- `InnerState::get_next_rbrack`: scan forward from `self.idx + 1`;
`(s.operations.drop (s.idx + 1)).head? = s.operations[s.idx + 1]?`. -/
def InnerState.get_next_rbrack (s : InnerState) : Option Nat :=
  scanNextRbrack (s.operations.drop (s.idx + 1)) (s.idx + 1) 0

/-- The scan loop of `InnerState::get_prev_lbrack`, scanning backward from
position `idx2`.  `none` models the Rust panics: an out-of-bounds array
read, or the `usize` underflow of `idx2 -= 1` at `idx2 = 0`. -/
def scanPrevLbrack (ops : List Operations) : Nat → Nat → Option Nat
  | idx2, othercount =>
    match ops[idx2]? with
    | none => none
    | some op =>
      match op with
      | .BracketLeft =>
        if othercount = 0 then some idx2
        else
          match idx2 with
          | 0 => none
          | i + 1 => scanPrevLbrack ops i (othercount - 1)
      | .BracketRight =>
        match idx2 with
        | 0 => none
        | i + 1 => scanPrevLbrack ops i (othercount + 1)
      | _ =>
        match idx2 with
        | 0 => none
        | i + 1 => scanPrevLbrack ops i othercount

/-- `InnerState::get_prev_lbrack`: scan backward from `self.idx - 1`;
`self.idx - 1` underflows (panics) when `self.idx = 0`. -/
def InnerState.get_prev_lbrack (s : InnerState) : Option Nat :=
  if s.idx = 0 then none
  else scanPrevLbrack s.operations (s.idx - 1) 0

/-- The bytes `print!` emits for `v as u8 as char` (`v` already in
`[0, 255]`): the UTF-8 encoding of the code point `v`. -/
def u8CharBytes (v : Nat) : List Nat :=
  charUtf8 v

/-- One step of `InnerState::execute`.  Returns the new state and the bytes
written to stdout, or `none` when the Rust code panics (instruction fetch
out of bounds, or a bracket scan running out of bounds). -/
def InnerState.execute (s : InnerState) : Option (InnerState × List Nat) :=
  match s.operations[s.idx]? with
  | none => none
  | some op =>
    match op with
    | .Add => some ({ s with memory := s.memory.increment, idx := s.idx + 1 }, [])
    | .Subtract => some ({ s with memory := s.memory.decrement, idx := s.idx + 1 }, [])
    | .MoveLeft => some ({ s with memory := s.memory.move_left, idx := s.idx + 1 }, [])
    | .MoveRight => some ({ s with memory := s.memory.move_right, idx := s.idx + 1 }, [])
    | .Input =>
      let m :=
        if s.input_str.length ≤ s.input_idx then s.memory.accept_in 0
        else s.memory.accept_in (s.input_str.getD s.input_idx 0)
      some ({ s with memory := m, input_idx := s.input_idx + 1, idx := s.idx + 1 }, [])
    | .Output =>
      some ({ s with idx := s.idx + 1 }, u8CharBytes (s.memory.give_out % 256))
    | .BracketLeft =>
      if s.memory.get_value = 0 then
        match s.get_next_rbrack with
        | none => none
        | some j => some ({ s with idx := j + 1 }, [])
      else some ({ s with idx := s.idx + 1 }, [])
    | .BracketRight =>
      if s.memory.get_value ≠ 0 then
        match s.get_prev_lbrack with
        | none => none
        | some j => some ({ s with idx := j + 1 }, [])
      else some ({ s with idx := s.idx + 1 }, [])
    | .Comment _ => some ({ s with idx := s.idx + 1 }, [])

/-- Result of the main `while state.idx < parsed[0].len()` loop: `halted`
when the guard became false, `crashed` when `execute` panicked, `running`
when the step budget ran out with the guard still true.  `out` is the bytes
written so far and `tr` the list of instruction indices executed. -/
inductive RunOutcome where
  | halted (s : InnerState) (out : List Nat) (tr : List Nat)
  | crashed (s : InnerState) (out : List Nat) (tr : List Nat)
  | running (s : InnerState) (out : List Nat) (tr : List Nat)

def RunOutcome.isHalted : RunOutcome → Bool
  | .halted _ _ _ => true
  | _ => false

def RunOutcome.isCrashed : RunOutcome → Bool
  | .crashed _ _ _ => true
  | _ => false

def RunOutcome.state : RunOutcome → InnerState
  | .halted s _ _ => s
  | .crashed s _ _ => s
  | .running s _ _ => s

def RunOutcome.out : RunOutcome → List Nat
  | .halted _ o _ => o
  | .crashed _ o _ => o
  | .running _ o _ => o

def RunOutcome.trace : RunOutcome → List Nat
  | .halted _ _ t => t
  | .crashed _ _ t => t
  | .running _ _ t => t

/-- The fetch-execute loop of `main`: `while state.idx < bound { state.execute(); }`,
with a fuel bound on the number of iterations. -/
def runLoop (bound : Nat) : Nat → InnerState → List Nat → List Nat → RunOutcome
  | 0, s, out, tr =>
    if s.idx < bound then .running s out tr else .halted s out tr
  | fuel + 1, s, out, tr =>
    if s.idx < bound then
      match s.execute with
      | none => .crashed s out tr
      | some (s2, o) => runLoop bound fuel s2 (out ++ o) (tr ++ [s.idx])
    else .halted s out tr

/-- `str::split` on the character `!`, as `contents.trim().split("!")`
performs it: empty pieces are kept, a text with no separator is one piece. -/
def splitBang : List Char → List (List Char)
  | [] => [[]]
  | c :: rest =>
    if c = '!' then [] :: splitBang rest
    else
      match splitBang rest with
      | [] => [[c]]
      | p :: ps => (c :: p) :: ps

/-- Rust `str::trim`: strip leading and trailing whitespace. -/
def rustTrim (l : List Char) : List Char :=
  ((l.dropWhile Char.isWhitespace).reverse.dropWhile Char.isWhitespace).reverse

/-- Byte length of the program slice `parsed[0]` (`str::len` counts UTF-8
bytes, not characters). -/
def byteLen (l : List Char) : Nat :=
  (l.map Char.utf8Size).sum

/-- Outcome of `main` on a given file content: either the configuration
error exit (`Please use only one `!` ...`, before any execution), or the
split into program text and input text handed to `InnerState::new`. -/
inductive ParseResult where
  | configError
  | ok (program : List Char) (input : List Char)
deriving DecidableEq

/-- `let mut parsed = contents.trim().split("!").collect::<Vec<&str>>();` -/
def parsedPieces (contents : List Char) : List (List Char) :=
  splitBang (rustTrim contents)

/-- `if parsed.len() < 2 { parsed.push(""); }` -/
def parsedPadded (contents : List Char) : List (List Char) :=
  if (parsedPieces contents).length < 2 then parsedPieces contents ++ [[]]
  else parsedPieces contents

/-- The argument handling in `main`: trim, split on `!`, pad a missing
input part with the empty string, reject more than two parts (the
configuration-error exit) before any execution. -/
def parseContents (contents : List Char) : ParseResult :=
  if 2 < (parsedPadded contents).length then .configError
  else .ok ((parsedPadded contents).getD 0 []) ((parsedPadded contents).getD 1 [])

/-- The whole of `main` after reading the file: parse, then run the
fetch-execute loop with the byte length of the program part as the bound. -/
def mainModel (contents : List Char) (fuel : Nat) : Option RunOutcome :=
  match parseContents contents with
  | .configError => none
  | .ok prog input =>
    some (runLoop (byteLen prog) fuel (InnerState.new prog input) [] [])

/-- All cells hold values in `[0, CELL_SIZE_LIMIT]`. -/
def cellsBounded (m : Memory) : Prop :=
  ∀ i, m.bytearray i ≤ CELL_SIZE_LIMIT

/-- The state after one `execute` step (identity on a panic), used to name
intermediate states of concrete runs. -/
def stepExec (s : InnerState) : InnerState :=
  match s.execute with
  | some (s2, _) => s2
  | none => s

/-- Initial state of the program `+[><]`: a loop whose body `><` never
changes whether the current cell is zero. -/
def loopDemo0 : InnerState := InnerState.new "+[><]".toList []

def loopDemo1 : InnerState := stepExec loopDemo0

/-- `+[><]` after two steps: at the first body instruction, cell 0 = 1. -/
def loopDemo2 : InnerState := stepExec loopDemo1

def loopDemo3 : InnerState := stepExec loopDemo2

def loopDemo4 : InnerState := stepExec loopDemo3

/-- A state about to execute `.` with the current cell holding 128. -/
def outState128 : InnerState :=
  InnerState.mk [Operations.Output] 0 (Memory.new.accept_in 128) [] 0

/- ------------------------------------------------------------------ -/
/- Helper lemmas                                                      -/
/- ------------------------------------------------------------------ -/

theorem Memory.setCell_idx (m : Memory) (v : Nat) : (m.setCell v).idx = m.idx := rfl

theorem Memory.setCell_get_value (m : Memory) (v : Nat) :
    (m.setCell v).get_value = v := by
  simp [Memory.setCell, Memory.get_value]

theorem Memory.setCell_bytearray (m : Memory) (v i : Nat) :
    (m.setCell v).bytearray i = if i = m.idx then v else m.bytearray i := rfl

theorem Memory.increment_eq (m : Memory) :
    m.increment =
      m.setCell (if CELL_SIZE_LIMIT ≤ m.bytearray m.idx then 0 else m.bytearray m.idx + 1) := by
  unfold Memory.increment
  split_ifs <;> rfl

theorem Memory.decrement_eq (m : Memory) :
    m.decrement =
      m.setCell (if m.bytearray m.idx = 0 then CELL_SIZE_LIMIT else m.bytearray m.idx - 1) := by
  unfold Memory.decrement
  split_ifs <;> rfl

theorem Memory.move_left_bytearray (m : Memory) : m.move_left.bytearray = m.bytearray := by
  unfold Memory.move_left Memory.keep_range
  split_ifs <;> rfl

theorem Memory.move_right_bytearray (m : Memory) : m.move_right.bytearray = m.bytearray := by
  unfold Memory.move_right Memory.keep_range
  split_ifs <;> rfl

/-- C3: increment followed by decrement restores any cell value in
`[0, CELL_SIZE_LIMIT]`, the pointer never moving. -/
theorem increment_decrement_roundtrip (m : Memory)
    (h : m.get_value ≤ CELL_SIZE_LIMIT) :
    m.increment.decrement.get_value = m.get_value ∧
    m.increment.decrement.idx = m.idx ∧
    m.increment.idx = m.idx := by
  rw [Memory.increment_eq, Memory.decrement_eq]
  simp only [Memory.setCell_idx, Memory.setCell_bytearray, Memory.setCell_get_value,
    Memory.get_value, CELL_SIZE_LIMIT, if_true] at *
  refine ⟨?_, trivial, trivial⟩
  rcases le_or_lt 255 (m.bytearray m.idx) with h255 | h255
  · rw [if_pos h255]
    norm_num
    omega
  · have hne : (if 255 ≤ m.bytearray m.idx then 0 else m.bytearray m.idx + 1) ≠ 0 := by
      rw [if_neg (by omega)]
      omega
    rw [if_neg hne, if_neg (by omega)]
    omega

theorem increment_decrement_roundtrip_witness :
    (Memory.new.accept_in 255).get_value ≤ CELL_SIZE_LIMIT ∧
    ((Memory.new.accept_in 255).increment.decrement.get_value =
        (Memory.new.accept_in 255).get_value ∧
      (Memory.new.accept_in 255).increment.decrement.idx = (Memory.new.accept_in 255).idx ∧
      (Memory.new.accept_in 255).increment.idx = (Memory.new.accept_in 255).idx) :=
  ⟨by decide, increment_decrement_roundtrip (Memory.new.accept_in 255) (by decide)⟩

/-- C4: cell arithmetic realises the 256-state policy, and every memory
operation keeps every cell in `[0, 255]`. -/
theorem cell_arithmetic_mod256 (m : Memory) (hm : cellsBounded m) :
    m.increment.get_value = (m.get_value + 1) % 256 ∧
    m.decrement.get_value = (if m.get_value = 0 then CELL_SIZE_LIMIT else m.get_value - 1) ∧
    cellsBounded m.increment ∧
    cellsBounded m.decrement ∧
    cellsBounded m.move_left ∧
    cellsBounded m.move_right ∧
    (∀ b, b ≤ 255 → cellsBounded (m.accept_in b)) ∧
    cellsBounded Memory.new := by
  have hv := hm m.idx
  refine ⟨?_, ?_, ?_, ?_, ?_, ?_, ?_, ?_⟩
  · rw [Memory.increment_eq, Memory.setCell_get_value]
    simp only [Memory.get_value, CELL_SIZE_LIMIT] at *
    split_ifs <;> omega
  · rw [Memory.decrement_eq, Memory.setCell_get_value]
    simp only [Memory.get_value]
  · intro i
    rw [Memory.increment_eq, Memory.setCell_bytearray]
    have hi := hm i
    simp only [CELL_SIZE_LIMIT] at *
    split_ifs <;> omega
  · intro i
    rw [Memory.decrement_eq, Memory.setCell_bytearray]
    have hi := hm i
    simp only [CELL_SIZE_LIMIT] at *
    split_ifs <;> omega
  · intro i
    rw [Memory.move_left_bytearray]
    exact hm i
  · intro i
    rw [Memory.move_right_bytearray]
    exact hm i
  · intro b hb i
    rw [Memory.accept_in, Memory.setCell_bytearray]
    have hi := hm i
    simp only [CELL_SIZE_LIMIT] at *
    split_ifs <;> omega
  · intro i
    simp [Memory.new, CELL_SIZE_LIMIT]

theorem cell_arithmetic_mod256_witness :
    cellsBounded Memory.new ∧
    (Memory.new.increment.get_value = (Memory.new.get_value + 1) % 256 ∧
      Memory.new.decrement.get_value =
        (if Memory.new.get_value = 0 then CELL_SIZE_LIMIT else Memory.new.get_value - 1) ∧
      cellsBounded Memory.new.increment ∧
      cellsBounded Memory.new.decrement ∧
      cellsBounded Memory.new.move_left ∧
      cellsBounded Memory.new.move_right ∧
      (∀ b, b ≤ 255 → cellsBounded (Memory.new.accept_in b)) ∧
      cellsBounded Memory.new) :=
  have hb : cellsBounded Memory.new := by
    intro i
    simp [Memory.new, CELL_SIZE_LIMIT]
  ⟨hb, cell_arithmetic_mod256 Memory.new hb⟩

/-- C5: the two pointer moves wrap at the tape ends, never fail, and keep
the pointer inside `[0, ARRAY_SIZE_LIMIT)`; cell operations never move it. -/
theorem pointer_wraparound_invariant (m : Memory) (h : m.idx < ARRAY_SIZE_LIMIT) :
    m.move_left.idx = (if m.idx = 0 then ARRAY_SIZE_LIMIT - 1 else m.idx - 1) ∧
    m.move_right.idx = (if m.idx = ARRAY_SIZE_LIMIT - 1 then 0 else m.idx + 1) ∧
    m.move_left.idx < ARRAY_SIZE_LIMIT ∧
    m.move_right.idx < ARRAY_SIZE_LIMIT ∧
    m.increment.idx = m.idx ∧
    m.decrement.idx = m.idx ∧
    (∀ v, (m.accept_in v).idx = m.idx) := by
  refine ⟨?_, ?_, ?_, ?_, ?_, ?_, ?_⟩
  · simp only [Memory.move_left, Memory.keep_range, apply_ite Memory.idx,
      ARRAY_SIZE_LIMIT] at *
    split_ifs <;> omega
  · simp only [Memory.move_right, Memory.keep_range, apply_ite Memory.idx,
      ARRAY_SIZE_LIMIT] at *
    split_ifs <;> omega
  · simp only [Memory.move_left, Memory.keep_range, apply_ite Memory.idx,
      ARRAY_SIZE_LIMIT] at *
    split_ifs <;> omega
  · simp only [Memory.move_right, Memory.keep_range, apply_ite Memory.idx,
      ARRAY_SIZE_LIMIT] at *
    split_ifs <;> omega
  · rw [Memory.increment_eq, Memory.setCell_idx]
  · rw [Memory.decrement_eq, Memory.setCell_idx]
  · intro v
    rfl

theorem pointer_wraparound_invariant_witness :
    Memory.new.idx < ARRAY_SIZE_LIMIT ∧
    (Memory.new.move_left.idx =
        (if Memory.new.idx = 0 then ARRAY_SIZE_LIMIT - 1 else Memory.new.idx - 1) ∧
      Memory.new.move_right.idx =
        (if Memory.new.idx = ARRAY_SIZE_LIMIT - 1 then 0 else Memory.new.idx + 1) ∧
      Memory.new.move_left.idx < ARRAY_SIZE_LIMIT ∧
      Memory.new.move_right.idx < ARRAY_SIZE_LIMIT ∧
      Memory.new.increment.idx = Memory.new.idx ∧
      Memory.new.decrement.idx = Memory.new.idx ∧
      (∀ v, (Memory.new.accept_in v).idx = Memory.new.idx)) :=
  ⟨by decide, pointer_wraparound_invariant Memory.new (by decide)⟩

/-- C6: a `ReadInput` step writes the next input byte (or 0 at EOF) to the
current cell, advances the cursor by 1 in both cases, touches no other cell,
and is never an error. -/
theorem read_input_semantics (s : InnerState)
    (h : s.operations[s.idx]? = some Operations.Input) :
    ∃ s2, s.execute = some (s2, []) ∧
      s2.input_idx = s.input_idx + 1 ∧
      s2.idx = s.idx + 1 ∧
      s2.memory.idx = s.memory.idx ∧
      s2.memory.get_value =
        (if s.input_idx < s.input_str.length then s.input_str.getD s.input_idx 0 else 0) ∧
      (∀ i, i ≠ s.memory.idx → s2.memory.bytearray i = s.memory.bytearray i) ∧
      s2.operations = s.operations ∧
      s2.input_str = s.input_str := by
  unfold InnerState.execute
  rw [h]
  refine ⟨_, rfl, rfl, rfl, ?_, ?_, ?_, rfl, rfl⟩
  · dsimp only
    split_ifs <;> rfl
  · dsimp only
    rcases lt_or_ge s.input_idx s.input_str.length with hlt | hge
    · rw [if_neg (by omega), if_pos hlt, Memory.accept_in, Memory.setCell_get_value]
    · rw [if_pos (by omega), if_neg (by omega), Memory.accept_in, Memory.setCell_get_value]
  · intro i hi
    dsimp only
    split_ifs <;>
      rw [Memory.accept_in, Memory.setCell_bytearray, if_neg hi]

theorem read_input_semantics_witness :
    ∃ s2, (InnerState.new [','] ['A']).execute = some (s2, []) ∧
      s2.input_idx = 1 ∧
      s2.idx = 1 ∧
      s2.memory.idx = 0 ∧
      s2.memory.get_value = 65 ∧
      (∀ i, i ≠ 0 → s2.memory.bytearray i = 0) ∧
      s2.operations = [Operations.Input] ∧
      s2.input_str = [65] :=
  read_input_semantics (InnerState.new [','] ['A']) rfl

/-- C2 counterexample: a `WriteOutput` with the current cell at 128 emits
the two bytes `[194, 128]` (the UTF-8 encoding of code point 128), not one
byte equal to the cell value. -/
theorem write_output_single_byte_cex :
    (outState128.execute.map Prod.snd) = some [194, 128] ∧
    outState128.memory.get_value = 128 ∧
    ([194, 128] : List Nat).length = 2 :=
  ⟨rfl, rfl, rfl⟩

/-- C2 amended: a `WriteOutput` step emits the UTF-8 encoding of the cell
value as a Unicode code point: one byte equal to the value for values below
128, two bytes for values in `[128, 255]`. -/
theorem write_output_utf8 (s : InnerState)
    (h : s.operations[s.idx]? = some Operations.Output)
    (hv : s.memory.give_out ≤ CELL_SIZE_LIMIT) :
    s.execute = some ({ s with idx := s.idx + 1 }, u8CharBytes s.memory.give_out) ∧
    (s.memory.give_out < 128 → u8CharBytes s.memory.give_out = [s.memory.give_out]) ∧
    (128 ≤ s.memory.give_out →
      u8CharBytes s.memory.give_out =
        [192 + s.memory.give_out / 64, 128 + s.memory.give_out % 64] ∧
      (u8CharBytes s.memory.give_out).length = 2) := by
  refine ⟨?_, ?_, ?_⟩
  · unfold InnerState.execute
    rw [h]
    have : s.memory.give_out % 256 = s.memory.give_out := by
      simp only [CELL_SIZE_LIMIT] at hv
      omega
    rw [this]
  · intro hlt
    unfold u8CharBytes charUtf8
    rw [if_pos hlt]
  · intro hge
    unfold u8CharBytes charUtf8
    simp only [CELL_SIZE_LIMIT] at hv
    rw [if_neg (by omega), if_pos (by omega)]
    exact ⟨rfl, rfl⟩

theorem write_output_utf8_witness :
    outState128.execute = some ({ outState128 with idx := 1 }, u8CharBytes 128) ∧
    ((128 : Nat) < 128 → u8CharBytes 128 = [128]) ∧
    ((128 : Nat) ≤ 128 →
      u8CharBytes 128 = [192 + 128 / 64, 128 + 128 % 64] ∧
      (u8CharBytes (128 : Nat)).length = 2) :=
  write_output_utf8 outState128 rfl (by decide)

/-- C1: on the unbalanced program `[+` (jump taken, cell 0), the forward
bracket scan runs past the end of the instruction sequence and the run
crashes with an index-out-of-bounds panic; no `UnbalancedBracket` failure
exists anywhere in the code. -/
theorem unbalanced_bracket_crashes :
    (InnerState.new "[+".toList []).get_next_rbrack = none ∧
    (∀ fuel, (runLoop 2 (fuel + 1) (InnerState.new "[+".toList []) [] []).isCrashed = true) ∧
    mainModel "[+".toList 5 =
      some (RunOutcome.crashed (InnerState.new "[+".toList []) [] []) := by
  refine ⟨rfl, fun fuel => rfl, rfl⟩

/-- C8: `++[->+<]` with empty input halts with cell 0 = 0, cell 1 = 2,
pointer back at cell 0, no output, and the loop body (whose first
instruction sits at index 3) executed exactly twice. -/
theorem loop_transfer_program_trace :
    (runLoop 8 20 (InnerState.new "++[->+<]".toList []) [] []).isHalted = true ∧
    (runLoop 8 20 (InnerState.new "++[->+<]".toList []) [] []).state.memory.bytearray 0 = 0 ∧
    (runLoop 8 20 (InnerState.new "++[->+<]".toList []) [] []).state.memory.bytearray 1 = 2 ∧
    (runLoop 8 20 (InnerState.new "++[->+<]".toList []) [] []).state.memory.idx = 0 ∧
    (runLoop 8 20 (InnerState.new "++[->+<]".toList []) [] []).state.idx = 8 ∧
    (runLoop 8 20 (InnerState.new "++[->+<]".toList []) [] []).trace.count 3 = 2 ∧
    (runLoop 8 20 (InnerState.new "++[->+<]".toList []) [] []).out = [] :=
  ⟨rfl, rfl, rfl, rfl, rfl, rfl, rfl⟩

theorem splitBang_no_sep (l : List Char) (h : '!' ∉ l) : splitBang l = [l] := by
  induction l with
  | nil => rfl
  | cons c rest ih =>
    rw [List.mem_cons, not_or] at h
    unfold splitBang
    rw [if_neg (fun hh => h.1 hh.symm), ih h.2]

theorem splitBang_one_sep (a b : List Char) (ha : '!' ∉ a) (hb : '!' ∉ b) :
    splitBang (a ++ '!' :: b) = [a, b] := by
  induction a with
  | nil =>
    simp only [List.nil_append]
    unfold splitBang
    rw [if_pos rfl, splitBang_no_sep b hb]
  | cons c a' ih =>
    rw [List.mem_cons, not_or] at ha
    rw [List.cons_append]
    unfold splitBang
    rw [if_neg (fun hh => ha.1 hh.symm), ih ha.2]

theorem splitBang_ne_nil (l : List Char) : splitBang l ≠ [] := by
  induction l with
  | nil => simp [splitBang]
  | cons c rest ih =>
    unfold splitBang
    split_ifs
    · simp
    · rcases hsp : splitBang rest with _ | ⟨p, ps⟩
      · exact absurd hsp ih
      · simp [hsp]

theorem splitBang_length (l : List Char) : (splitBang l).length = l.count '!' + 1 := by
  induction l with
  | nil => rfl
  | cons c rest ih =>
    unfold splitBang
    by_cases hc : c = '!'
    · rw [if_pos hc]
      simp [List.count_cons, hc, ih]
    · rw [if_neg hc]
      rcases hsp : splitBang rest with _ | ⟨p, ps⟩
      · exact absurd hsp (splitBang_ne_nil rest)
      · show ((c :: p) :: ps).length = List.count '!' (c :: rest) + 1
        rw [hsp] at ih
        simp only [List.length_cons] at ih ⊢
        rw [List.count_cons]
        simp only [beq_iff_eq]
        rw [if_neg hc]
        omega

theorem count_bang_dropWhile (l : List Char) :
    (l.dropWhile Char.isWhitespace).count '!' = l.count '!' := by
  induction l with
  | nil => rfl
  | cons c rest ih =>
    rw [List.dropWhile_cons]
    by_cases hw : Char.isWhitespace c
    · rw [if_pos hw, ih, List.count_cons]
      have hc : ¬(c == '!') = true := by
        intro hh
        rw [beq_iff_eq] at hh
        subst hh
        exact absurd hw (by decide)
      rw [if_neg hc]
      omega
    · rw [if_neg hw]

theorem count_bang_rustTrim (t : List Char) :
    (rustTrim t).count '!' = t.count '!' := by
  unfold rustTrim
  rw [List.count_reverse, count_bang_dropWhile, List.count_reverse, count_bang_dropWhile]

theorem count_one_split (l : List Char) (h : l.count '!' = 1) :
    ∃ a b, l = a ++ '!' :: b ∧ '!' ∉ a ∧ '!' ∉ b := by
  induction l with
  | nil => simp [List.count_nil] at h
  | cons c rest ih =>
    by_cases hc : c = '!'
    · subst hc
      have h0 : rest.count '!' = 0 := by
        rw [List.count_cons] at h
        simp at h
        omega
      exact ⟨[], rest, rfl, by simp, List.count_eq_zero.mp h0⟩
    · have h1 : rest.count '!' = 1 := by
        rw [List.count_cons] at h
        simp only [beq_iff_eq] at h
        rw [if_neg hc] at h
        omega
      obtain ⟨a, b, heq, ha, hb⟩ := ih h1
      refine ⟨c :: a, b, by rw [heq, List.cons_append], ?_, hb⟩
      intro hm
      rcases List.mem_cons.mp hm with h2 | h2
      · exact hc h2.symm
      · exact ha h2

/-- C7: combined-source separator handling: exactly one `!` splits the
trimmed text into program and input (so `+++.!` gives program `+++.` and
empty input), more than one `!` is the configuration-error exit before any
execution, and no `!` means the whole trimmed text is the program with
empty input. -/
theorem separator_splitting :
    parseContents "+++.!".toList = ParseResult.ok "+++.".toList [] ∧
    (∀ t : List Char, t.count '!' = 1 →
      ∃ a b, rustTrim t = a ++ '!' :: b ∧ '!' ∉ a ∧ '!' ∉ b ∧
        parseContents t = ParseResult.ok a b) ∧
    (∀ t : List Char, 2 ≤ t.count '!' →
      parseContents t = ParseResult.configError ∧ ∀ fuel, mainModel t fuel = none) ∧
    (∀ t : List Char, t.count '!' = 0 → parseContents t = ParseResult.ok (rustTrim t) []) := by
  refine ⟨rfl, ?_, ?_, ?_⟩
  · intro t ht
    have ht' : (rustTrim t).count '!' = 1 := by
      rw [count_bang_rustTrim]; exact ht
    obtain ⟨a, b, heq, ha, hb⟩ := count_one_split _ ht'
    refine ⟨a, b, heq, ha, hb, ?_⟩
    have hp : parsedPieces t = [a, b] := by
      unfold parsedPieces
      rw [heq, splitBang_one_sep a b ha hb]
    have hpad : parsedPadded t = [a, b] := by
      unfold parsedPadded
      rw [hp]
      norm_num
    unfold parseContents
    rw [hpad]
    simp
  · intro t ht
    have hp : (parsedPieces t).length = t.count '!' + 1 := by
      unfold parsedPieces
      rw [splitBang_length, count_bang_rustTrim]
    have hpad : parsedPadded t = parsedPieces t := by
      unfold parsedPadded
      rw [if_neg (by omega)]
    have hcfg : parseContents t = ParseResult.configError := by
      unfold parseContents
      rw [hpad, if_pos (by omega)]
    refine ⟨hcfg, fun fuel => ?_⟩
    unfold mainModel
    rw [hcfg]
  · intro t ht
    have hnm : '!' ∉ rustTrim t :=
      List.count_eq_zero.mp (by rw [count_bang_rustTrim]; exact ht)
    have hp : parsedPieces t = [rustTrim t] := by
      unfold parsedPieces
      exact splitBang_no_sep _ hnm
    have hpad : parsedPadded t = [rustTrim t, []] := by
      unfold parsedPadded
      rw [hp]
      norm_num
    unfold parseContents
    rw [hpad]
    simp

theorem separator_splitting_witness :
    parseContents "a!b!c".toList = ParseResult.configError ∧
    (∀ fuel, mainModel "a!b!c".toList fuel = none) :=
  separator_splitting.2.2.1 "a!b!c".toList (by decide)

theorem runLoop_succ (bound fuel : Nat) (s s2 : InnerState) (o out tr : List Nat)
    (hidx : s.idx < bound) (hex : s.execute = some (s2, o)) :
    runLoop bound (fuel + 1) s out tr = runLoop bound fuel s2 (out ++ o) (tr ++ [s.idx]) := by
  simp only [runLoop, if_pos hidx, hex]

theorem runLoop_crash (bound fuel : Nat) (s : InnerState) (out tr : List Nat)
    (hidx : s.idx < bound) (hex : s.execute = none) :
    runLoop bound (fuel + 1) s out tr = .crashed s out tr := by
  simp only [runLoop, if_pos hidx, hex]

theorem notHalt2 : ∀ n out tr, (runLoop 5 n loopDemo2 out tr).isHalted = false := by
  intro n
  induction n using Nat.strong_induction_on with
  | _ n ih =>
    match n with
    | 0 => intro out tr; rfl
    | 1 => intro out tr; rfl
    | 2 => intro out tr; rfl
    | m + 3 =>
      intro out tr
      rw [runLoop_succ 5 (m + 2) loopDemo2 loopDemo3 [] out tr (by decide) rfl,
          runLoop_succ 5 (m + 1) loopDemo3 loopDemo4 [] _ _ (by decide) rfl,
          runLoop_succ 5 m loopDemo4 loopDemo2 [] _ _ (by decide) rfl]
      exact ih m (by omega) _ _

/-- C9 counterexample: in `+[><]` the loop body `><` never changes whether
cell 0 is zero and the cell starts nonzero, yet the body's first
instruction (index 2) has already executed three times within the first 9
steps - not exactly once - and the run has not halted. -/
theorem loop_body_once_cex :
    (runLoop 5 9 loopDemo0 [] []).trace.count 2 = 3 ∧
    (runLoop 5 9 loopDemo0 [] []).isHalted = false ∧
    loopDemo0.operations = [Operations.Add, Operations.BracketLeft, Operations.MoveRight,
      Operations.MoveLeft, Operations.BracketRight] ∧
    loopDemo2.idx = 2 :=
  ⟨rfl, rfl, rfl, rfl⟩

/-- C9 amended: a `LoopStart` with the current cell zero jumps straight
past the matching bracket (body runs zero times); with the cell nonzero the
body is entered, and when the body never changes the zero-ness of the
current cell the loop is re-entered after every pass and never terminates,
as the concrete loop `+[><]` shows. -/
theorem loop_zeroness_behavior :
    (∀ s : InnerState, ∀ j, s.operations[s.idx]? = some Operations.BracketLeft →
      s.memory.get_value = 0 → s.get_next_rbrack = some j →
      s.execute = some ({ s with idx := j + 1 }, [])) ∧
    (∀ s : InnerState, s.operations[s.idx]? = some Operations.BracketLeft →
      s.memory.get_value ≠ 0 →
      s.execute = some ({ s with idx := s.idx + 1 }, [])) ∧
    (∀ fuel out tr, (runLoop 5 fuel loopDemo0 out tr).isHalted = false) := by
  refine ⟨?_, ?_, ?_⟩
  · intro s j h h0 hj
    unfold InnerState.execute
    rw [h]
    dsimp only
    rw [if_pos h0, hj]
  · intro s h h0
    unfold InnerState.execute
    rw [h]
    dsimp only
    rw [if_neg (by simpa using h0)]
  · intro fuel out tr
    match fuel with
    | 0 => rfl
    | 1 => rfl
    | k + 2 =>
      rw [runLoop_succ 5 (k + 1) loopDemo0 loopDemo1 [] out tr (by decide) rfl,
          runLoop_succ 5 k loopDemo1 loopDemo2 [] _ _ (by decide) rfl]
      exact notHalt2 k _ _

theorem loop_zeroness_behavior_witness :
    (InnerState.new "[><]".toList []).execute =
      some ({ InnerState.new "[><]".toList [] with idx := 4 }, []) :=
  loop_zeroness_behavior.1 (InnerState.new "[><]".toList []) 3 rfl rfl rfl


theorem one_le_utf8Size (c : Char) : 1 ≤ c.utf8Size := by
  unfold Char.utf8Size
  dsimp only
  split_ifs <;> norm_num

theorem byteLen_eq_length (l : List Char) (h : ∀ c ∈ l, c.utf8Size = 1) :
    byteLen l = l.length := by
  induction l with
  | nil => rfl
  | cons c rest ih =>
    unfold byteLen at ih ⊢
    simp only [List.map_cons, List.sum_cons, List.length_cons]
    rw [h c (List.mem_cons_self c rest), ih (fun x hx => h x (List.mem_cons_of_mem c hx))]
    omega

theorem length_le_byteLen (l : List Char) : l.length ≤ byteLen l := by
  induction l with
  | nil => exact Nat.le_refl 0
  | cons c rest ih =>
    unfold byteLen at ih ⊢
    simp only [List.map_cons, List.sum_cons, List.length_cons]
    have := one_le_utf8Size c
    omega

theorem byteLen_gt (l : List Char) (h : ∃ c ∈ l, 2 ≤ c.utf8Size) :
    l.length < byteLen l := by
  induction l with
  | nil =>
    rcases h with ⟨c, hc, _⟩
    cases hc
  | cons c rest ih =>
    rcases h with ⟨d, hd, h2⟩
    rcases List.mem_cons.mp hd with rfl | hdr
    · have hr := length_le_byteLen rest
      unfold byteLen at hr ⊢
      simp only [List.map_cons, List.sum_cons, List.length_cons]
      omega
    · have hi := ih ⟨d, hdr, h2⟩
      have h1 := one_le_utf8Size c
      unfold byteLen at hi ⊢
      simp only [List.map_cons, List.sum_cons, List.length_cons]
      omega

/-- C10: the run-loop bound is the byte length of the program text while
instructions are one per character; for all-ASCII programs the two agree
and every fetch under the bound is in bounds, whereas any multi-byte
character makes the bound exceed the instruction count, so the fetch at
index = instruction count is out of bounds and the loop, still running,
crashes there. -/
theorem program_byte_length_bound :
    (∀ prog : List Char, (∀ c ∈ prog, c.utf8Size = 1) →
      byteLen prog = prog.length ∧
      ∀ i, i < byteLen prog → ((prog.map charToOp)[i]?).isSome = true) ∧
    (∀ prog : List Char, (∃ c ∈ prog, 2 ≤ c.utf8Size) →
      prog.length < byteLen prog ∧
      (prog.map charToOp)[prog.length]? = none ∧
      (∀ s : InnerState, s.operations = prog.map charToOp → s.idx = prog.length →
        ∀ fuel out tr, (runLoop (byteLen prog) (fuel + 1) s out tr).isCrashed = true)) := by
  constructor
  · intro prog h
    have hb := byteLen_eq_length prog h
    refine ⟨hb, fun i hi => ?_⟩
    rw [hb] at hi
    rw [List.getElem?_eq_getElem (by simpa using hi)]
    rfl
  · intro prog h
    have hlt := byteLen_gt prog h
    refine ⟨hlt, ?_, ?_⟩
    · exact List.getElem?_eq_none (by simp)
    · intro s hops hidx fuel out tr
      have hexec : s.execute = none := by
        unfold InnerState.execute
        rw [hops, hidx, List.getElem?_eq_none (by simp)]
      rw [runLoop_crash (byteLen prog) fuel s out tr (by rw [hidx]; exact hlt) hexec]
      rfl

theorem program_byte_length_bound_witness :
    ("é".toList.map charToOp)["é".toList.length]? = none :=
  (program_byte_length_bound.2 "é".toList ⟨'é', by decide, by decide⟩).2.1

end BFInt
